import Mathlib

/-!
# AutoTagger document-tagging pipeline: a shallow embedding

This file embeds the core NLP pipeline of the AutoTagger repository
(`app/nlp_processor.py`, class `NLPProcessor`) in Lean 4 and proves the
testable properties stated in its specification.

Modelling conventions:
* Python strings are Lean `String`s (lists of unicode code points); the
  Python string/regex primitives used by the code (`str.lower`, `str.split`,
  `re.sub` with the three concrete patterns of `preprocess_text`) are embedded
  character by character with ASCII-range character classes, which covers
  every input exercised here.
* Floating point numbers are modelled as exact arithmetic: `ℚ` where the
  pipeline only compares and orders scores, `ℝ` where cosine similarity
  genuinely needs square roots and logarithms.
* The external statistical libraries are handled as the spec directs
  (§9 "opaque capability providers"): the scikit-learn `TfidfVectorizer`
  as configured by `__init__` (`max_features=1000`, `stop_words='english'`,
  `ngram_range=(1,2)`) is embedded concretely from its documented behaviour;
  the NLTK tokenizer/lemmatizer and the spaCy NER model are abstract
  parameters of the processor record, so theorems quantify over every
  possible behaviour of those models.
-/

/-- Python whitespace (regex `\s`, `str.split`), ASCII range:
space, tab, newline, carriage return, vertical tab, form feed. -/
def pyIsSpace (c : Char) : Bool :=
  c = ' ' || c = '\t' || c = '\n' || c = '\r' || c = '\x0b' || c = '\x0c'

/-- Regex `\S`: any non-whitespace character. -/
def pyNonSpace (c : Char) : Bool := !pyIsSpace c

/-- Matcher for the pattern `http\S+|www.\S+` of
`re.sub(r'http\S+|www.\S+', '', text)` (nlp_processor.py line 86) at the
head of the character list.  Returns the length of the (greedy, leftmost)
match, if any.  Note that the dot in `www.` is unescaped in the source, so it
matches ANY character except a newline -- including a space. -/
def urlMatchLen : List Char → Option Nat
  | 'h' :: 't' :: 't' :: 'p' :: rest =>
    let run := rest.takeWhile pyNonSpace
    if run.length = 0 then none else some (4 + run.length)
  | 'w' :: 'w' :: 'w' :: c :: rest =>
    if c = '\n' then none
    else
      let run := rest.takeWhile pyNonSpace
      if run.length = 0 then none else some (4 + run.length)
  | _ => none

/-- Matcher for the pattern `\S+@\S+` of
`re.sub(r'\S+@\S+', '', text)` (nlp_processor.py line 89) at the head of the
character list.  With backtracking, the pattern matches at the start of a
maximal `\S`-run exactly when the run contains an `@` that has at least one
non-space character before and after it inside the run, and the greedy
trailing `\S+` then extends the match to the end of the run. -/
def emailMatchLen (l : List Char) : Option Nat :=
  let run := l.takeWhile pyNonSpace
  if ((run.drop 1).dropLast).contains '@' then some run.length else none

/-- One pass of `re.sub(pattern, '', text)`: scan left to right, delete each
leftmost non-overlapping match, emit non-matching characters unchanged.
The fuel argument only bounds the recursion; `reSub` below always supplies
the length of the list, which suffices because every step consumes at least
one character. -/
def reSubDeleteAux (m : List Char → Option Nat) : Nat → List Char → List Char
  | 0, _ => []
  | _, [] => []
  | fuel + 1, c :: rest =>
    match m (c :: rest) with
    | some n => reSubDeleteAux m fuel (rest.drop (n - 1))
    | none => c :: reSubDeleteAux m fuel rest

/-- `re.sub(pattern, '', text)` for a head-matcher `m`. -/
def reSub (m : List Char → Option Nat) (l : List Char) : List Char :=
  reSubDeleteAux m l.length l

/-- Split a character list at the separator characters, keeping (possibly
empty) runs between them. -/
def splitRuns (isSep : Char → Bool) : List Char → List (List Char)
  | [] => [[]]
  | c :: rest =>
    let gs := splitRuns isSep rest
    if isSep c then [] :: gs
    else
      match gs with
      | [] => [[c]]
      | g :: tl => (c :: g) :: tl

/-- Python `text.split()`: the non-empty maximal runs of non-whitespace. -/
def pyWords (l : List Char) : List (List Char) :=
  (splitRuns pyIsSpace l).filter (fun w => !w.isEmpty)

/-- The substitution of `re.sub(r'[^a-zA-Z0-9\s]', ' ', text)`
(nlp_processor.py line 92): any character that is not an ASCII letter, digit
or whitespace becomes a space. -/
def keepAlnumSpace (c : Char) : Char :=
  if c.isAlpha || c.isDigit || pyIsSpace c then c else ' '

/-- `NLPProcessor.preprocess_text` (nlp_processor.py lines 72-97):
lowercase, remove URLs (`http\S+|www.\S+`), remove e-mail-like tokens
(`\S+@\S+`), replace special characters by spaces, collapse whitespace. -/
def preprocess_text (text : String) : String :=
  let lowered := text.data.map Char.toLower
  let noUrl := reSub urlMatchLen lowered
  let noEmail := reSub emailMatchLen noUrl
  let cleaned := noEmail.map keepAlnumSpace
  String.intercalate " " ((pyWords cleaned).map (fun w => String.mk w))

example : preprocess_text "Hello, World!" = "hello world" := by decide
example : preprocess_text "Visit http://x.com now" = "visit now" := by decide
example : preprocess_text "mail me@example.org today" = "mail today" := by decide
example : preprocess_text "" = "" := by decide

/-- Code-point lexicographic `≤` on character lists, the order Python uses to
compare strings (`sorted(vocabulary)` in the vectorizer). -/
def charListLe : List Char → List Char → Bool
  | [], _ => true
  | _ :: _, [] => false
  | a :: as, b :: bs => if a < b then true else if b < a then false else charListLe as bs

/-- Code-point lexicographic `<` on character lists. -/
def charListLt : List Char → List Char → Bool
  | [], [] => false
  | [], _ :: _ => true
  | _ :: _, [] => false
  | a :: as, b :: bs => if a < b then true else if b < a then false else charListLt as bs

/-- Python string `≤` (code-point lexicographic). -/
def strLe (a b : String) : Bool := charListLe a.data b.data

/-- Python string `<` (code-point lexicographic). -/
def strLt (a b : String) : Bool := charListLt a.data b.data

/-- Insert `x` in front of the first element `y` with `r x y`.  Used to build
the stable sorts below. -/
def insertBy {α : Type} (r : α → α → Bool) (x : α) : List α → List α
  | [] => [x]
  | y :: ys => if r x y then x :: y :: ys else y :: insertBy r x ys

/-- Stable insertion sort: an element goes before the first later element `y`
with `r x y`.  With `r = goes-strictly-before-or-ties-in-input-order` this has
exactly the stability contract of Python's `list.sort`. -/
def sortBy {α : Type} (r : α → α → Bool) : List α → List α
  | [] => []
  | x :: xs => insertBy r x (sortBy r xs)

/-- `list.sort(key=..., reverse=True)`: stable sort by descending key; an
element is placed before the first element whose key is `≤` its own, so
elements with equal keys keep their original relative order. -/
def sortKeyDesc {α β : Type} [LinearOrder β] (key : α → β) (l : List α) : List α :=
  sortBy (fun x y => decide (key y ≤ key x)) l

/-- The entity spans produced by the black-box spaCy model: `ent.text` and
`ent.label_` of `doc.ents` (nlp_processor.py line 176). -/
structure SpacyEnt where
  text : String
  label : String
deriving DecidableEq

/-- The `NLPProcessor` object (nlp_processor.py lines 25-57).
`max_keywords` and `min_keyword_length` are the constructor arguments
(defaults 10 and 3); `stop_words` is `set(stopwords.words('english'))`;
`lemmatize` is `WordNetLemmatizer().lemmatize`; `word_tokenize` is NLTK's
`word_tokenize`; `nlp` is the spaCy model, `none` when `spacy.load` failed.
The three external models are abstract parameters: theorems about the
processor hold for every behaviour of these black boxes. -/
structure NLPProcessor where
  max_keywords : Nat
  min_keyword_length : Nat
  stop_words : List String
  lemmatize : String → String
  word_tokenize : String → List String
  nlp : Option (String → List SpacyEnt)

/-- `NLPProcessor.tokenize_and_lemmatize` (nlp_processor.py lines 99-119):
tokenize, drop tokens that are stop words or shorter than
`min_keyword_length`, then lemmatize the survivors. -/
def tokenize_and_lemmatize (p : NLPProcessor) (text : String) : List String :=
  ((p.word_tokenize text).filter
    (fun token =>
      !decide (token ∈ p.stop_words) && decide (p.min_keyword_length ≤ token.length))).map
    p.lemmatize

/-- scikit-learn's built-in english stop word list
(`sklearn.feature_extraction.text.ENGLISH_STOP_WORDS`), selected by the
`stop_words='english'` argument of the `TfidfVectorizer` constructed in
`NLPProcessor.__init__` (nlp_processor.py line 51).  No claim in scope
depends on the exact membership of this list, only on concrete non-membership
of the handful of words used in concrete inputs below. -/
def sklearnStopWords : List String :=
  ["a", "about", "above", "across", "after", "afterwards", "again", "against",
   "all", "almost", "alone", "along", "already", "also", "although", "always",
   "am", "among", "amongst", "amoungst", "amount", "an", "and", "another",
   "any", "anyhow", "anyone", "anything", "anyway", "anywhere", "are",
   "around", "as", "at", "back", "be", "became", "because", "become",
   "becomes", "becoming", "been", "before", "beforehand", "behind", "being",
   "below", "beside", "besides", "between", "beyond", "bill", "both",
   "bottom", "but", "by", "call", "can", "cannot", "cant", "co", "con",
   "could", "couldnt", "cry", "de", "describe", "detail", "do", "done",
   "down", "due", "during", "each", "eg", "eight", "either", "eleven",
   "else", "elsewhere", "empty", "enough", "etc", "even", "ever", "every",
   "everyone", "everything", "everywhere", "except", "few", "fifteen",
   "fifty", "fill", "find", "fire", "first", "five", "for", "former",
   "formerly", "forty", "found", "four", "from", "front", "full", "further",
   "get", "give", "go", "had", "has", "hasnt", "have", "he", "hence", "her",
   "here", "hereafter", "hereby", "herein", "hereupon", "hers", "herself",
   "him", "himself", "his", "how", "however", "hundred", "i", "ie", "if",
   "in", "inc", "indeed", "interest", "into", "is", "it", "its", "itself",
   "keep", "last", "latter", "latterly", "least", "less", "ltd", "made",
   "many", "may", "me", "meanwhile", "might", "mill", "mine", "more",
   "moreover", "most", "mostly", "move", "much", "must", "my", "myself",
   "name", "namely", "neither", "never", "nevertheless", "next", "nine",
   "no", "nobody", "none", "noone", "nor", "not", "nothing", "now",
   "nowhere", "of", "off", "often", "on", "once", "one", "only", "onto",
   "or", "other", "others", "otherwise", "our", "ours", "ourselves", "out",
   "over", "own", "part", "per", "perhaps", "please", "put", "rather", "re",
   "same", "see", "seem", "seemed", "seeming", "seems", "serious", "several",
   "she", "should", "show", "side", "since", "sincere", "six", "sixty",
   "so", "some", "somehow", "someone", "something", "sometime", "sometimes",
   "somewhere", "still", "such", "system", "take", "ten", "than", "that",
   "the", "their", "them", "themselves", "then", "thence", "there",
   "thereafter", "thereby", "therefore", "therein", "thereupon", "these",
   "they", "thick", "thin", "third", "this", "those", "though", "three",
   "through", "throughout", "thru", "thus", "to", "together", "too", "top",
   "toward", "towards", "twelve", "twenty", "two", "un", "under", "until",
   "up", "upon", "us", "very", "via", "was", "we", "well", "were", "what",
   "whatever", "when", "whence", "whenever", "where", "whereafter",
   "whereas", "whereby", "wherein", "whereupon", "wherever", "whether",
   "which", "while", "whither", "who", "whoever", "whole", "whom", "whose",
   "why", "will", "with", "within", "without", "would", "yet", "you",
   "your", "yours", "yourself", "yourselves"]

/-- Regex `\w`: word characters (ASCII letters, digits, underscore). -/
def isWordChar (c : Char) : Bool := c.isAlpha || c.isDigit || c = '_'

/-- The vectorizer's word analyzer: lowercase (`lowercase=True`), then the
default `token_pattern=r"(?u)\b\w\w+\b"`, i.e. the maximal word-character
runs of length at least 2. -/
def skTokens (s : String) : List String :=
  ((splitRuns (fun c => !isWordChar c) (s.data.map Char.toLower)).filter
      (fun w => decide (2 ≤ w.length))).map
    (fun w => String.mk w)

/-- Tokens surviving the vectorizer's stop-word filter (applied before
n-gram generation). -/
def skTerms (s : String) : List String :=
  (skTokens s).filter (fun t => !sklearnStopWords.contains t)

/-- The raw feature stream of one document under `ngram_range=(1, 2)`
(nlp_processor.py line 52): all unigrams in text order followed by all
bigrams (adjacent surviving tokens joined by a space) in text order. -/
def skNgrams (s : String) : List String :=
  skTerms s ++ List.zipWith (fun a b => a ++ " " ++ b) (skTerms s) (skTerms s).tail

/-- Number of occurrences of feature `f` in document `d` (the count entry of
the document-term matrix). -/
def docCount (d : String) (f : String) : Nat := (skNgrams d).count f

/-- The concatenated feature stream of a corpus. -/
def corpusStream (docs : List String) : List String := docs.flatMap skNgrams

/-- Total number of occurrences of feature `f` over the corpus, used by the
vectorizer when truncating to `max_features`. -/
def termFreq (docs : List String) (f : String) : Nat := (corpusStream docs).count f

/-- `max_features=1000` (nlp_processor.py line 50). -/
def maxFeatures : Nat := 1000

/-- The fitted vocabulary of `TfidfVectorizer.fit_transform(docs)`: the
distinct features sorted in Python string order (scikit-learn sorts the
vocabulary alphabetically); when more than `max_features` distinct features
exist, only the `max_features` features with the highest corpus term
frequency are kept (ties resolved towards the alphabetically first), still
in alphabetical order.  `sortedVocab` is the distinct features sorted in
Python string order; `fitVocabulary` applies the `max_features` cap. -/
def sortedVocab (docs : List String) : List String :=
  sortBy strLe (corpusStream docs).dedup

/-- See `fitVocabulary`. -/
def fitVocabulary (docs : List String) : List String :=
  if (sortedVocab docs).length ≤ maxFeatures then sortedVocab docs
  else
    (sortedVocab docs).filter
      (fun f => ((sortKeyDesc (termFreq docs) (sortedVocab docs)).take maxFeatures).contains f)

/-- The `(feature name, score)` rows of `extract_keywords_tfidf` before
filtering and sorting (nlp_processor.py lines 140-148).  The vectorizer is
fitted on the single document `[preprocess_text text]`, so the smooth idf
`ln((1+1)/(1+1)) + 1 = 1` for every feature and the tf-idf weight equals the
raw term count; the final l2 row normalisation divides every weight of the
call by the same positive constant, which changes no ordering, no sign and no
tie, and is therefore dropped from the exact-arithmetic model. -/
def keywordScores (text : String) : List (String × ℚ) :=
  (fitVocabulary [preprocess_text text]).map
    (fun f => (f, (docCount (preprocess_text text) f : ℚ)))

/-- `NLPProcessor.extract_keywords_tfidf` (nlp_processor.py lines 121-156):
default `top_n` to `max_keywords`, keep the features with positive score,
sort by descending score (Python's stable sort) and take the first `top_n`.
On an empty vocabulary the vectorizer raises and the `except` branch returns
`[]` (lines 154-156). -/
def extract_keywords_tfidf (p : NLPProcessor) (text : String) (top_n : Option Nat) :
    List (String × ℚ) :=
  let n := top_n.getD p.max_keywords
  if fitVocabulary [preprocess_text text] = [] then []
  else
    (sortKeyDesc Prod.snd ((keywordScores text).filter (fun x => decide (0 < x.2)))).take n

example : skNgrams "alpha beta" = ["alpha", "beta", "alpha beta"] := by decide
example : fitVocabulary ["beta alpha"] = ["alpha", "beta", "beta alpha"] := by decide

/-- The entity-label allow-list of `extract_entities`
(nlp_processor.py line 178). -/
def entityAllowList : List String :=
  ["PERSON", "ORG", "GPE", "LOC", "PRODUCT", "EVENT", "WORK_OF_ART"]

/-- One entity dictionary `{'text': ..., 'label': ..., 'confidence': ...}`
appended by `extract_entities` (nlp_processor.py lines 179-183). -/
structure EntityDict where
  text : String
  label : String
  confidence : ℚ
deriving DecidableEq

/-- Python `str.lower()` (ASCII range). -/
def strLower (s : String) : String := String.mk (s.data.map Char.toLower)

/-- The de-duplication key `(ent['text'].lower(), ent['label'])`
(nlp_processor.py line 189). -/
def entKey (e : EntityDict) : String × String := (strLower e.text, e.label)

/-- The entity dictionaries built from the model's spans: keep only spans
whose label is in the allow-list, attach the fixed confidence `0.8`
(nlp_processor.py lines 176-183). -/
def filteredEntities (ents : List SpacyEnt) : List EntityDict :=
  (ents.filter (fun e => decide (e.label ∈ entityAllowList))).map
    (fun e => ⟨e.text, e.label, 0.8⟩)

/-- The `seen`-set loop of `extract_entities` (nlp_processor.py lines
185-192): keep an entity only if its key was not seen before, in order. -/
def dedupEntities (seen : List (String × String)) : List EntityDict → List EntityDict
  | [] => []
  | e :: rest =>
    if entKey e ∈ seen then dedupEntities seen rest
    else e :: dedupEntities (entKey e :: seen) rest

/-- The spans the spaCy model reports for a text (empty when the model is
unavailable). -/
def spacyEnts (p : NLPProcessor) (text : String) : List SpacyEnt :=
  match p.nlp with
  | none => []
  | some model => model text

/-- `NLPProcessor.extract_entities` (nlp_processor.py lines 158-198):
empty when the model failed to load, otherwise the label-filtered spans with
fixed confidence, de-duplicated on (lowercased text, label) keeping first
occurrences. -/
def extract_entities (p : NLPProcessor) (text : String) : List EntityDict :=
  match p.nlp with
  | none => []
  | some model => dedupEntities [] (filteredEntities (model text))

/-- One entry of the `extract_all_tags` result (nlp_processor.py lines
216-232): `entity_type` is present only on entity tags. -/
structure TagCandidate where
  tag_name : String
  tag_type : String
  confidence_score : ℚ
  entity_type : Option String
deriving DecidableEq

/-- `NLPProcessor.extract_all_tags` (nlp_processor.py lines 200-235): the
`(keywords, entities)` lists of tag candidates, wrapping the outputs of the
two extractors. -/
def extract_all_tags (p : NLPProcessor) (text : String) :
    List TagCandidate × List TagCandidate :=
  ((extract_keywords_tfidf p text none).map (fun ks => ⟨ks.1, "keyword", ks.2, none⟩),
   (extract_entities p text).map (fun e => ⟨e.text, "entity", e.confidence, some e.label⟩))

/-- Number of corpus documents containing feature `f` (document frequency). -/
def docFreq (docs : List String) (f : String) : Nat :=
  (docs.filter (fun d => decide (0 < docCount d f))).length

/-- scikit-learn's smooth idf: `ln((1 + n) / (1 + df)) + 1`. -/
noncomputable def idfSmooth (nDocs df : Nat) : ℝ :=
  Real.log ((1 + nDocs : ℝ) / (1 + df)) + 1

/-- One tf-idf matrix entry for document `d` and feature `f` of a corpus. -/
noncomputable def tfidfVal (docs : List String) (d f : String) : ℝ :=
  (docCount d f : ℝ) * idfSmooth docs.length (docFreq docs f)

/-- The tf-idf row vector of document `d` over the fitted vocabulary.
scikit-learn additionally l2-normalises each row, and `cosine_similarity`
normalises again; in exact arithmetic the cosine of the raw rows below is
the same number, so the redundant row normalisation is dropped. -/
noncomputable def tfidfVec (docs : List String) (d : String) : List ℝ :=
  (fitVocabulary docs).map (tfidfVal docs d)

/-- Dot product of two equally long real vectors. -/
noncomputable def dotR (a b : List ℝ) : ℝ := (List.zipWith (· * ·) a b).sum

/-- `sklearn.metrics.pairwise.cosine_similarity` of two rows, in exact real
arithmetic (Mathlib's division by zero returns 0, matching the library's
treatment of all-zero rows). -/
noncomputable def cosSim (a b : List ℝ) : ℝ :=
  dotR a b / (Real.sqrt (dotR a a) * Real.sqrt (dotR b b))

/-- `NLPProcessor.calculate_document_similarity` (nlp_processor.py lines
237-263): preprocess both texts, fit the vectorizer jointly on the two
documents, return their cosine similarity.  When no feature survives in
either document the vectorizer raises `empty vocabulary` and the `except`
branch returns `0.0` (lines 261-263). -/
noncomputable def calculate_document_similarity (t1 t2 : String) : ℝ :=
  let docs := [preprocess_text t1, preprocess_text t2]
  if fitVocabulary docs = [] then 0
  else cosSim (tfidfVec docs (preprocess_text t1)) (tfidfVec docs (preprocess_text t2))

/-- The preprocessed corpus `[target] + candidates` fitted by
`find_similar_documents` (nlp_processor.py lines 284-290). -/
def simCorpus (target : String) (dcs : List (Int × String)) : List String :=
  preprocess_text target :: dcs.map (fun dc => preprocess_text dc.2)

/-- `zip(document_contents, similarities)` projected to `(doc_id, score)`
(nlp_processor.py lines 293-298), before threshold filtering. -/
noncomputable def similarityPairs (target : String) (dcs : List (Int × String)) :
    List (Int × ℝ) :=
  let docs := simCorpus target dcs
  (dcs.zip (dcs.map (fun dc =>
      cosSim (tfidfVec docs (preprocess_text target)) (tfidfVec docs (preprocess_text dc.2))))).map
    (fun z => (z.1.1, z.2))

/-- The comprehension filter `if sim >= threshold` (nlp_processor.py
line 299). -/
noncomputable def filterScoreGe (threshold : ℝ) (l : List (Int × ℝ)) : List (Int × ℝ) :=
  l.filter (fun x => decide (threshold ≤ x.2))

/-- The entries whose score equals `s`; used to state tie stability. -/
noncomputable def filterScoreEq (s : ℝ) (l : List (Int × ℝ)) : List (Int × ℝ) :=
  l.filter (fun x => decide (x.2 = s))

/-- `NLPProcessor.find_similar_documents` (nlp_processor.py lines 265-309):
empty candidate list short-circuits to `[]`; otherwise fit one vectorizer
over target and candidates (an overall empty vocabulary raises and the
`except` branch returns `[]`), keep the candidates scoring at least the
threshold, and sort by descending similarity (stable). -/
noncomputable def find_similar_documents (target : String) (dcs : List (Int × String))
    (threshold : ℝ) : List (Int × ℝ) :=
  if dcs = [] then []
  else if fitVocabulary (simCorpus target dcs) = [] then []
  else sortKeyDesc Prod.snd (filterScoreGe threshold (similarityPairs target dcs))

/-- NLTK's english stop-word list (`stopwords.words('english')`), the
`stop_words` set of the processor (nlp_processor.py line 57).  Apostrophes in
contracted forms are written with the `\x27` escape. -/
def nltkStopWords : List String :=
  ["i", "me", "my", "myself", "we", "our", "ours", "ourselves", "you",
   "you\x27re", "you\x27ve", "you\x27ll", "you\x27d", "your", "yours",
   "yourself", "yourselves", "he", "him", "his", "himself", "she",
   "she\x27s", "her", "hers", "herself", "it", "it\x27s", "its", "itself",
   "they", "them", "their", "theirs", "themselves", "what", "which", "who",
   "whom", "this", "that", "that\x27ll", "these", "those", "am", "is",
   "are", "was", "were", "be", "been", "being", "have", "has", "had",
   "having", "do", "does", "did", "doing", "a", "an", "the", "and", "but",
   "if", "or", "because", "as", "until", "while", "of", "at", "by", "for",
   "with", "about", "against", "between", "into", "through", "during",
   "before", "after", "above", "below", "to", "from", "up", "down", "in",
   "out", "on", "off", "over", "under", "again", "further", "then", "once",
   "here", "there", "when", "where", "why", "how", "all", "any", "both",
   "each", "few", "more", "most", "other", "some", "such", "no", "nor",
   "not", "only", "own", "same", "so", "than", "too", "very", "s", "t",
   "can", "will", "just", "don", "don\x27t", "should", "should\x27ve",
   "now", "d", "ll", "m", "o", "re", "ve", "y", "ain", "aren",
   "aren\x27t", "couldn", "couldn\x27t", "didn", "didn\x27t", "doesn",
   "doesn\x27t", "hadn", "hadn\x27t", "hasn", "hasn\x27t", "haven",
   "haven\x27t", "isn", "isn\x27t", "ma", "mightn", "mightn\x27t",
   "mustn", "mustn\x27t", "needn", "needn\x27t", "shan", "shan\x27t",
   "shouldn", "shouldn\x27t", "wasn", "wasn\x27t", "weren", "weren\x27t",
   "won", "won\x27t", "wouldn", "wouldn\x27t"]

/-- Modelled from the spec: NLTK's `word_tokenize` is an external model
resource ("splits normalized text into atomic tokens", spec §4.1); this
instance splits at whitespace, which agrees with the library on the
single-word inputs used below. -/
def wordTokenizeModel (s : String) : List String :=
  (pyWords s.data).map (fun w => String.mk w)

/-- Modelled from the spec: the external lemmatization ruleset (spec §6,
"canonical dictionary form, e.g. plural→singular", §4.1).  The two
non-identity entries are the actual outputs of NLTK's `WordNetLemmatizer`
(which returns the shortest WordNet lemma): `axes → ax`, `dos → do`. -/
def wordnetLemmatizeModel (s : String) : String :=
  if s = "axes" then "ax" else if s = "dos" then "do" else s

/-- A processor with the constructor defaults `max_keywords=10`,
`min_keyword_length=3` (nlp_processor.py line 25, config.py MAX_KEYWORDS /
MIN_KEYWORD_LENGTH) and the concrete model instances above.  `nlp := none`
is the degraded mode of a failed `spacy.load`; none of the concrete
evaluations below depend on the entity model. -/
def defaultProcessor : NLPProcessor :=
  ⟨10, 3, nltkStopWords, wordnetLemmatizeModel, wordTokenizeModel, none⟩

example : tokenize_and_lemmatize defaultProcessor "running axes here" = ["running", "ax"] := by decide
example : extract_keywords_tfidf defaultProcessor "alpha beta" none =
    [("alpha", 1), ("alpha beta", 1), ("beta", 1)] := by decide

theorem string_data_inj {a b : String} (h : a.data = b.data) : a = b := by
  cases a
  cases b
  exact congrArg String.mk h

theorem charListLe_cons_iff {x y : Char} {as bs : List Char} :
    charListLe (x :: as) (y :: bs) = true ↔ (x < y ∨ (x = y ∧ charListLe as bs = true)) := by
  show (if x < y then true else if y < x then false else charListLe as bs) = true ↔ _
  rcases lt_trichotomy x y with h | h | h
  · simp [h]
  · simp [h, lt_irrefl]
  · simp [lt_asymm h, h, ne_of_gt h]

theorem charListLt_cons_iff {x y : Char} {as bs : List Char} :
    charListLt (x :: as) (y :: bs) = true ↔ (x < y ∨ (x = y ∧ charListLt as bs = true)) := by
  show (if x < y then true else if y < x then false else charListLt as bs) = true ↔ _
  rcases lt_trichotomy x y with h | h | h
  · simp [h]
  · simp [h, lt_irrefl]
  · simp [lt_asymm h, h, ne_of_gt h]

theorem charListLe_total (a : List Char) : ∀ b, charListLe a b = true ∨ charListLe b a = true := by
  induction a with
  | nil => intro b; left; rfl
  | cons x as ih =>
    intro b
    cases b with
    | nil => right; rfl
    | cons y bs =>
      rcases lt_trichotomy x y with h | h | h
      · left; exact charListLe_cons_iff.mpr (Or.inl h)
      · rcases ih bs with h2 | h2
        · left; exact charListLe_cons_iff.mpr (Or.inr ⟨h, h2⟩)
        · right; exact charListLe_cons_iff.mpr (Or.inr ⟨h.symm, h2⟩)
      · right; exact charListLe_cons_iff.mpr (Or.inl h)

theorem charListLe_trans {a : List Char} : ∀ {b c : List Char},
    charListLe a b = true → charListLe b c = true → charListLe a c = true := by
  induction a with
  | nil => intro b c _ _; rfl
  | cons x as ih =>
    intro b c h1 h2
    cases b with
    | nil => simp [charListLe] at h1
    | cons y bs =>
      cases c with
      | nil => simp [charListLe] at h2
      | cons z cs =>
        rcases charListLe_cons_iff.mp h1 with hxy | ⟨hxy, h1t⟩
        · rcases charListLe_cons_iff.mp h2 with hyz | ⟨hyz, _⟩
          · exact charListLe_cons_iff.mpr (Or.inl (lt_trans hxy hyz))
          · exact charListLe_cons_iff.mpr (Or.inl (hyz ▸ hxy))
        · rcases charListLe_cons_iff.mp h2 with hyz | ⟨hyz, h2t⟩
          · exact charListLe_cons_iff.mpr (Or.inl (hxy ▸ hyz))
          · exact charListLe_cons_iff.mpr (Or.inr ⟨hxy.trans hyz, ih h1t h2t⟩)

theorem charListLt_of_le_of_ne {a : List Char} : ∀ {b : List Char},
    charListLe a b = true → a ≠ b → charListLt a b = true := by
  induction a with
  | nil =>
    intro b _ hne
    cases b with
    | nil => exact absurd rfl hne
    | cons y bs => rfl
  | cons x as ih =>
    intro b h1 hne
    cases b with
    | nil => simp [charListLe] at h1
    | cons y bs =>
      rcases charListLe_cons_iff.mp h1 with hxy | ⟨hxy, h1t⟩
      · exact charListLt_cons_iff.mpr (Or.inl hxy)
      · refine charListLt_cons_iff.mpr (Or.inr ⟨hxy, ih h1t ?_⟩)
        intro heq
        exact hne (by rw [hxy, heq])

theorem strLe_total (a b : String) : strLe a b = true ∨ strLe b a = true :=
  charListLe_total a.data b.data

theorem strLe_trans {a b c : String} (h1 : strLe a b = true) (h2 : strLe b c = true) :
    strLe a c = true :=
  charListLe_trans h1 h2

theorem strLt_of_le_of_ne {a b : String} (h1 : strLe a b = true) (h2 : a ≠ b) :
    strLt a b = true :=
  charListLt_of_le_of_ne h1 (fun hd => h2 (string_data_inj hd))

theorem insertBy_perm {α : Type} (r : α → α → Bool) (x : α) (l : List α) :
    List.Perm (insertBy r x l) (x :: l) := by
  induction l with
  | nil => exact List.Perm.refl _
  | cons y ys ih =>
    by_cases h : r x y = true
    · rw [insertBy, if_pos h]
    · rw [insertBy, if_neg h]
      exact (ih.cons y).trans (List.Perm.swap x y ys)

theorem sortBy_perm {α : Type} (r : α → α → Bool) (l : List α) :
    List.Perm (sortBy r l) l := by
  induction l with
  | nil => exact List.Perm.refl _
  | cons x xs ih => exact (insertBy_perm r x (sortBy r xs)).trans (ih.cons x)

theorem insertBy_pairwise {α : Type} {r : α → α → Bool} {R : α → α → Prop}
    (hr : ∀ a b, r a b = true → R a b) (hnr : ∀ a b, r a b = false → R b a)
    (htr : ∀ {a b c : α}, R a b → R b c → R a c)
    (x : α) {l : List α} (hl : l.Pairwise R) : (insertBy r x l).Pairwise R := by
  induction l with
  | nil => simp [insertBy]
  | cons y ys ih =>
    rcases List.pairwise_cons.mp hl with ⟨hy, hys⟩
    by_cases h : r x y = true
    · rw [insertBy, if_pos h]
      refine List.pairwise_cons.mpr ⟨?_, hl⟩
      intro z hz
      rcases List.mem_cons.mp hz with rfl | hz2
      · exact hr _ _ h
      · exact htr (hr _ _ h) (hy z hz2)
    · rw [insertBy, if_neg h]
      refine List.pairwise_cons.mpr ⟨?_, ih hys⟩
      intro z hz
      rcases List.mem_cons.mp ((insertBy_perm r x ys).mem_iff.mp hz) with rfl | hz2
      · cases hb : r z y with
        | true => exact absurd hb h
        | false => exact hnr _ _ hb
      · exact hy z hz2

theorem sortBy_pairwise {α : Type} {r : α → α → Bool} {R : α → α → Prop}
    (hr : ∀ a b, r a b = true → R a b) (hnr : ∀ a b, r a b = false → R b a)
    (htr : ∀ {a b c : α}, R a b → R b c → R a c)
    (l : List α) : (sortBy r l).Pairwise R := by
  induction l with
  | nil => simp [sortBy]
  | cons x xs ih => exact insertBy_pairwise hr hnr htr x ih

theorem sortKeyDesc_perm {α β : Type} [LinearOrder β] (key : α → β) (l : List α) :
    List.Perm (sortKeyDesc key l) l :=
  sortBy_perm _ l

theorem sortKeyDesc_sorted {α β : Type} [LinearOrder β] (key : α → β) (l : List α) :
    (sortKeyDesc key l).Pairwise (fun a b => key b ≤ key a) := by
  refine sortBy_pairwise ?_ ?_ ?_ l
  · intro a b h
    exact of_decide_eq_true h
  · intro a b h
    exact le_of_not_le (of_decide_eq_false h)
  · intro a b c h1 h2
    exact le_trans h2 h1

theorem insertBy_filter_keyClass {α β : Type} [LinearOrder β] {key : α → β}
    (p : α → Bool) (hp : ∀ a b, p a = true → p b = true → key a = key b)
    (x : α) (l : List α) :
    (insertBy (fun u v => decide (key v ≤ key u)) x l).filter p =
      if p x then x :: l.filter p else l.filter p := by
  induction l with
  | nil => by_cases h : p x = true <;> simp [insertBy, h]
  | cons y ys ih =>
    by_cases hxy : decide (key y ≤ key x) = true
    · rw [insertBy, if_pos hxy, List.filter_cons]
    · rw [insertBy, if_neg hxy, List.filter_cons, ih]
      by_cases hx : p x = true
      · have hyf : p y = false := by
          cases hpy : p y with
          | false => rfl
          | true =>
            have heq : key x = key y := hp x y hx hpy
            have hlt : key x < key y :=
              lt_of_not_le (fun hc => hxy (decide_eq_true hc))
            exact absurd heq (ne_of_lt hlt)
        simp [hx, hyf, List.filter_cons]
      · have hx2 : p x = false := by
          cases hpx : p x with
          | true => exact absurd hpx hx
          | false => rfl
        simp [hx2, List.filter_cons]

theorem sortKeyDesc_filter_keyClass {α β : Type} [LinearOrder β] {key : α → β}
    (p : α → Bool) (hp : ∀ a b, p a = true → p b = true → key a = key b)
    (l : List α) : (sortKeyDesc key l).filter p = l.filter p := by
  induction l with
  | nil => rfl
  | cons x xs ih =>
    rw [sortKeyDesc, sortBy, insertBy_filter_keyClass p hp, List.filter_cons]
    rw [sortKeyDesc] at ih
    by_cases hx : p x = true <;> simp [hx, ih]

theorem sortBy_strLe_pairwise (l : List String) :
    (sortBy strLe l).Pairwise (fun a b => strLe a b = true) := by
  refine sortBy_pairwise ?_ ?_ ?_ l
  · exact fun a b h => h
  · intro a b h
    rcases strLe_total a b with h2 | h2
    · rw [h] at h2; exact absurd h2 (by simp)
    · exact h2
  · exact fun h1 h2 => strLe_trans h1 h2

theorem sortedVocab_pairwise_lt (docs : List String) :
    (sortedVocab docs).Pairwise (fun a b => strLt a b = true) := by
  have hperm := sortBy_perm strLe (corpusStream docs).dedup
  have hnd : (sortedVocab docs).Nodup := by
    rw [sortedVocab]
    exact hperm.symm.nodup (List.nodup_dedup _)
  have hle := sortBy_strLe_pairwise (corpusStream docs).dedup
  rw [sortedVocab]
  exact (hle.and hnd).imp (fun h => strLt_of_le_of_ne h.1 h.2)

theorem fitVocabulary_sublist (docs : List String) :
    (fitVocabulary docs).Sublist (sortedVocab docs) := by
  rw [fitVocabulary]
  by_cases h : (sortedVocab docs).length ≤ maxFeatures
  · rw [if_pos h]
  · rw [if_neg h]
    exact List.filter_sublist _

theorem fitVocabulary_pairwise_lt (docs : List String) :
    (fitVocabulary docs).Pairwise (fun a b => strLt a b = true) :=
  (sortedVocab_pairwise_lt docs).sublist (fitVocabulary_sublist docs)

theorem mem_sortedVocab {docs : List String} {f : String} :
    f ∈ sortedVocab docs ↔ f ∈ corpusStream docs := by
  rw [sortedVocab, (sortBy_perm strLe _).mem_iff]
  exact List.mem_dedup

theorem mem_corpusStream_of_mem_fitVocabulary {docs : List String} {f : String}
    (h : f ∈ fitVocabulary docs) : f ∈ corpusStream docs :=
  mem_sortedVocab.mp ((fitVocabulary_sublist docs).subset h)

theorem keywordScores_pairwise_lt (text : String) :
    (keywordScores text).Pairwise (fun a b => strLt a.1 b.1 = true) := by
  rw [keywordScores]
  exact List.pairwise_map.mpr ((fitVocabulary_pairwise_lt _).imp (fun h => h))

theorem dedupEntities_sublist (seen : List (String × String)) (l : List EntityDict) :
    (dedupEntities seen l).Sublist l := by
  induction l generalizing seen with
  | nil => exact List.Sublist.refl []
  | cons e rest ih =>
    rw [dedupEntities]
    by_cases h : entKey e ∈ seen
    · rw [if_pos h]
      exact (ih seen).cons e
    · rw [if_neg h]
      exact (ih _).cons₂ e

theorem mem_dedupEntities_not_seen {seen : List (String × String)} {l : List EntityDict}
    {e : EntityDict} (he : e ∈ dedupEntities seen l) : entKey e ∉ seen := by
  induction l generalizing seen with
  | nil => simp [dedupEntities] at he
  | cons a rest ih =>
    rw [dedupEntities] at he
    by_cases h : entKey a ∈ seen
    · rw [if_pos h] at he
      exact ih he
    · rw [if_neg h] at he
      rcases List.mem_cons.mp he with rfl | he2
      · exact h
      · intro hc
        exact ih he2 (List.mem_cons_of_mem _ hc)

theorem dedupEntities_pairwise (seen : List (String × String)) (l : List EntityDict) :
    (dedupEntities seen l).Pairwise (fun a b => entKey a ≠ entKey b) := by
  induction l generalizing seen with
  | nil => simp [dedupEntities]
  | cons e rest ih =>
    rw [dedupEntities]
    by_cases h : entKey e ∈ seen
    · rw [if_pos h]
      exact ih seen
    · rw [if_neg h]
      refine List.pairwise_cons.mpr ⟨?_, ih _⟩
      intro b hb hc
      exact mem_dedupEntities_not_seen hb (by rw [← hc]; exact List.mem_cons_self _ _)

theorem dedupEntities_filter (seen : List (String × String)) (l : List EntityDict)
    (k : String × String) :
    (dedupEntities seen l).filter (fun e => decide (entKey e = k)) =
      if k ∈ seen then [] else (l.filter (fun e => decide (entKey e = k))).take 1 := by
  induction l generalizing seen with
  | nil => by_cases h : k ∈ seen <;> simp [dedupEntities, h]
  | cons e rest ih =>
    rw [dedupEntities]
    by_cases hseen : entKey e ∈ seen
    · rw [if_pos hseen, ih]
      by_cases hk : k ∈ seen
      · simp [hk]
      · have hne : ¬ entKey e = k := fun hc => hk (hc ▸ hseen)
        simp [hk, List.filter_cons, hne]
    · rw [if_neg hseen, List.filter_cons, ih]
      by_cases hek : entKey e = k
      · have hkseen : ¬ k ∈ seen := fun hc => hseen (hek ▸ hc)
        simp [hek, hkseen, List.filter_cons]
      · have hmem : (k ∈ entKey e :: seen) ↔ k ∈ seen := by
          constructor
          · intro hc
            rcases List.mem_cons.mp hc with rfl | hc2
            · exact absurd rfl hek
            · exact hc2
          · exact fun hc => List.mem_cons_of_mem _ hc
        by_cases hk : k ∈ seen
        · simp [hek, hmem, hk, List.filter_cons]
        · simp [hek, hmem, hk, List.filter_cons]

theorem extract_keywords_eq (p : NLPProcessor) (text : String) (tn : Option Nat) :
    extract_keywords_tfidf p text tn =
      (sortKeyDesc Prod.snd
          ((keywordScores text).filter (fun x => decide (0 < x.2)))).take
        (tn.getD p.max_keywords) := by
  simp only [extract_keywords_tfidf]
  by_cases h : fitVocabulary [preprocess_text text] = []
  · rw [if_pos h]
    have hks : keywordScores text = [] := by
      rw [keywordScores, h]
      rfl
    rw [hks]
    simp [sortKeyDesc, sortBy]
  · rw [if_neg h]

theorem zipWith_mul_map_same (g : String → ℝ) (l : List String) :
    List.zipWith (fun a b => a * b) (l.map g) (l.map g) = l.map (fun f => g f * g f) := by
  induction l with
  | nil => rfl
  | cons x xs ih => simp [ih]

theorem mem_skNgrams_of_mem_corpusStream_pair {d f : String}
    (h : f ∈ corpusStream [d, d]) : f ∈ skNgrams d := by
  rw [corpusStream] at h
  rcases List.mem_flatMap.mp h with ⟨x, hx, hfx⟩
  rcases List.mem_cons.mp hx with rfl | hx2
  · exact hfx
  · rcases List.mem_cons.mp hx2 with rfl | hx3
    · exact hfx
    · exact absurd hx3 (List.not_mem_nil x)

theorem docFreq_pair {d f : String} (h : 0 < docCount d f) : docFreq [d, d] f = 2 := by
  rw [docFreq]
  simp [List.filter_cons, h]

theorem idfSmooth_two_two : idfSmooth 2 2 = 1 := by
  rw [idfSmooth]
  norm_num

theorem cosSim_self {v : List ℝ} (h : 0 < dotR v v) : cosSim v v = 1 := by
  rw [cosSim, Real.mul_self_sqrt (le_of_lt h), div_self (ne_of_gt h)]

theorem tfidfVec_pair_self_dot_pos (d : String) (h : fitVocabulary [d, d] ≠ []) :
    0 < dotR (tfidfVec [d, d] d) (tfidfVec [d, d] d) := by
  rw [tfidfVec, dotR, zipWith_mul_map_same]
  refine List.sum_pos _ ?_ ?_
  · intro a ha
    rcases List.mem_map.mp ha with ⟨f, hf, rfl⟩
    have hcount : 0 < docCount d f :=
      List.count_pos_iff.mpr
        (mem_skNgrams_of_mem_corpusStream_pair (mem_corpusStream_of_mem_fitVocabulary hf))
    have hidf : idfSmooth ([d, d] : List String).length (docFreq [d, d] f) = 1 := by
      rw [docFreq_pair hcount]
      exact idfSmooth_two_two
    rw [tfidfVal, hidf, mul_one]
    have : (0 : ℝ) < (docCount d f : ℝ) := by exact_mod_cast hcount
    exact mul_pos this this
  · simp [h]

/-- C1 (amended): `extract_keywords_tfidf` returns at most `top_n` pairs --
exactly `min top_n (number of positive-score terms)`, so all qualifying terms
are returned without padding when fewer exist -- sorted by NON-STRICTLY
descending score (equal scores are possible), with every returned score
positive; an omitted `top_n` defaults to the configured `max_keywords`. -/
theorem extract_keywords_contract (p : NLPProcessor) (text : String) (tn : Option Nat)
    (n : Nat) :
    extract_keywords_tfidf p text none = extract_keywords_tfidf p text (some p.max_keywords) ∧
    (extract_keywords_tfidf p text (some n)).length =
      min n ((keywordScores text).filter (fun x => decide (0 < x.2))).length ∧
    (extract_keywords_tfidf p text tn).Pairwise (fun a b => b.2 ≤ a.2) ∧
    (extract_keywords_tfidf p text tn).filter (fun x => decide (0 < x.2)) =
      extract_keywords_tfidf p text tn := by
  refine ⟨?_, ?_, ?_, ?_⟩
  · rw [extract_keywords_eq, extract_keywords_eq]
    simp only [Option.getD_none, Option.getD_some]
  · rw [extract_keywords_eq, List.length_take,
      (sortKeyDesc_perm Prod.snd ((keywordScores text).filter
        (fun x => decide (0 < x.2)))).length_eq]
    simp only [Option.getD_some]
  · rw [extract_keywords_eq]
    exact (sortKeyDesc_sorted Prod.snd _).sublist (List.take_sublist _ _)
  · rw [extract_keywords_eq]
    apply List.filter_eq_self.mpr
    intro a ha
    have hmem : a ∈ (keywordScores text).filter (fun x => decide (0 < x.2)) :=
      (sortKeyDesc_perm Prod.snd _).mem_iff.mp ((List.take_sublist _ _).subset ha)
    exact (List.mem_filter.mp hmem).2

/-- C1 counterexample: the claimed STRICT descending order fails.  On
`"alpha beta"` all three features (two unigrams, one bigram) occur once and
receive the same tf-idf score, so the output is not strictly decreasing. -/
theorem extract_keywords_not_strictly_sorted :
    ¬ (extract_keywords_tfidf defaultProcessor "alpha beta" none).Pairwise
        (fun a b => b.2 < a.2) := by
  decide

/-- C3 (code bug): `preprocess_text` is not idempotent.  The unescaped dot in
the URL pattern `www.\S+` matches a space, so the pattern matches
`"www abc"`; on `"www! abc"` the first pass turns `!` into a space, producing
`"www abc"`, and the second pass deletes it entirely. -/
theorem preprocess_text_not_idempotent :
    preprocess_text (preprocess_text "www! abc") ≠ preprocess_text "www! abc" := by
  decide

/-- C4 (amended): every token returned by `tokenize_and_lemmatize` is the
lemma of a source token that has length ≥ `min_keyword_length` and is not in
the stop-word set.  The filter runs BEFORE lemmatization, so the returned
lemma itself may be shorter or a stop word. -/
theorem tokenize_and_lemmatize_sources (p : NLPProcessor) (text : String) (tok : String)
    (htok : tok ∈ tokenize_and_lemmatize p text) :
    ∃ src, src ∈ p.word_tokenize text ∧ src ∉ p.stop_words ∧
      p.min_keyword_length ≤ src.length ∧ p.lemmatize src = tok := by
  rw [tokenize_and_lemmatize] at htok
  rcases List.mem_map.mp htok with ⟨src, hsrc, hlem⟩
  rcases List.mem_filter.mp hsrc with ⟨hmem, hcond⟩
  rcases Bool.and_eq_true _ _ |>.mp hcond with ⟨h1, h2⟩
  refine ⟨src, hmem, ?_, of_decide_eq_true h2, hlem⟩
  intro hc
  rw [decide_eq_true hc] at h1
  exact Bool.false_ne_true h1

/-- Witness for C4's amended theorem at the concrete input `"axes"`. -/
theorem tokenize_and_lemmatize_sources_witness :
    "ax" ∈ tokenize_and_lemmatize defaultProcessor "axes" ∧
      ∃ src, src ∈ defaultProcessor.word_tokenize "axes" ∧
        src ∉ defaultProcessor.stop_words ∧
        defaultProcessor.min_keyword_length ≤ src.length ∧
        defaultProcessor.lemmatize src = "ax" :=
  ⟨by decide, tokenize_and_lemmatize_sources defaultProcessor "axes" "ax" (by decide)⟩

/-- C4 counterexample: the claim as stated fails on the code.  `"axes"`
passes the filter (length 4, not a stop word) but its lemma `"ax"` has
length 2 < `min_keyword_length` = 3. -/
theorem tokenize_and_lemmatize_short_output :
    tokenize_and_lemmatize defaultProcessor "axes" = ["ax"] ∧
      "ax".length < defaultProcessor.min_keyword_length := by
  exact ⟨by decide, by decide⟩

/-- C8 (amended): within the output of `extract_keywords_tfidf`, entries with
equal scores appear in ascending lexicographic (Python string) order of the
term: scikit-learn sorts its vocabulary alphabetically and the stable
descending sort keeps that order among ties. -/
theorem extract_keywords_tie_order (p : NLPProcessor) (text : String) (tn : Option Nat)
    (s : ℚ) :
    ((extract_keywords_tfidf p text tn).filter (fun x => decide (x.2 = s))).Pairwise
      (fun a b => strLt a.1 b.1 = true) := by
  have hp : ∀ a b : String × ℚ, (fun x : String × ℚ => decide (x.2 = s)) a = true →
      (fun x : String × ℚ => decide (x.2 = s)) b = true → Prod.snd a = Prod.snd b := by
    intro a b ha hb
    rw [of_decide_eq_true ha, of_decide_eq_true hb]
  have hstable := sortKeyDesc_filter_keyClass (fun x : String × ℚ => decide (x.2 = s)) hp
      ((keywordScores text).filter (fun x => decide (0 < x.2)))
  have hpw : (((keywordScores text).filter (fun x => decide (0 < x.2))).filter
        (fun x : String × ℚ => decide (x.2 = s))).Pairwise
      (fun a b => strLt a.1 b.1 = true) :=
    (keywordScores_pairwise_lt text).sublist
      ((List.filter_sublist _).trans (List.filter_sublist _))
  rw [extract_keywords_eq]
  refine hpw.sublist ?_
  rw [← hstable]
  exact (List.take_sublist _ _).filter _

/-- C8 counterexample: ties are NOT emitted in first-seen order.  In
`"beta alpha"` the feature stream is `beta, alpha, beta alpha` (first-seen
order), all scores tie, yet the output lists `alpha` before `beta` because
the vocabulary is sorted alphabetically. -/
theorem extract_keywords_tie_not_first_seen :
    extract_keywords_tfidf defaultProcessor "beta alpha" none =
        [("alpha", 1), ("beta", 1), ("beta alpha", 1)] ∧
      skNgrams (preprocess_text "beta alpha") = ["beta", "alpha", "beta alpha"] :=
  ⟨by decide, by decide⟩

/-- C5: `extract_entities` never returns two items with the same
(lowercased text, label) key; its output is a subsequence of the
label-filtered model spans, and for every key the retained item is exactly
the FIRST occurrence of that key (the later duplicates are dropped), so the
first occurrence's order position is kept. -/
theorem extract_entities_dedup (p : NLPProcessor) (text : String) :
    (extract_entities p text).Pairwise (fun a b => entKey a ≠ entKey b) ∧
    (extract_entities p text).Sublist (filteredEntities (spacyEnts p text)) ∧
    ∀ k, (extract_entities p text).filter (fun e => decide (entKey e = k)) =
      ((filteredEntities (spacyEnts p text)).filter (fun e => decide (entKey e = k))).take 1 := by
  cases hnlp : p.nlp with
  | none =>
    simp only [extract_entities, spacyEnts, hnlp]
    refine ⟨List.Pairwise.nil, ?_, ?_⟩
    · simp [filteredEntities]
    · intro k
      simp [filteredEntities]
  | some model =>
    simp only [extract_entities, spacyEnts, hnlp]
    refine ⟨dedupEntities_pairwise [] _, dedupEntities_sublist [] _, ?_⟩
    intro k
    rw [dedupEntities_filter]
    simp

/-- C6: every entity returned by `extract_entities` has a label in the fixed
allow-list and the fixed confidence `0.8`. -/
theorem extract_entities_label_confidence (p : NLPProcessor) (text : String) :
    (extract_entities p text).filter
        (fun e => decide (e.label ∈ entityAllowList ∧ e.confidence = 0.8)) =
      extract_entities p text := by
  apply List.filter_eq_self.mpr
  intro e he
  apply decide_eq_true
  cases hnlp : p.nlp with
  | none =>
    simp only [extract_entities, hnlp] at he
    exact absurd he (List.not_mem_nil e)
  | some model =>
    simp only [extract_entities, hnlp] at he
    have hmem : e ∈ filteredEntities (model text) := (dedupEntities_sublist _ _).subset he
    rw [filteredEntities] at hmem
    rcases List.mem_map.mp hmem with ⟨sp, hsp, rfl⟩
    rcases List.mem_filter.mp hsp with ⟨_, hlab⟩
    exact ⟨of_decide_eq_true hlab, rfl⟩

/-- C9: the four public contracts are total functions of their inputs in this
embedding; the caught error conditions of the code are explicit branches
yielding empty results: an unavailable spaCy model gives `[]` on every
entity call, an empty fitted vocabulary (the condition under which the
vectorizer raises) gives `[]` keywords, similarity `0`, and `[]` similar
documents, and tag aggregation composes the two caught extractors
elementwise. -/
theorem pipeline_error_policy (p : NLPProcessor) (text t1 t2 target : String)
    (dcs : List (Int × String)) (thr : ℝ) (tn : Option Nat) :
    (p.nlp = none → extract_entities p text = []) ∧
    (fitVocabulary [preprocess_text text] = [] → extract_keywords_tfidf p text tn = []) ∧
    (fitVocabulary [preprocess_text t1, preprocess_text t2] = [] →
      calculate_document_similarity t1 t2 = 0) ∧
    (fitVocabulary (simCorpus target dcs) = [] → find_similar_documents target dcs thr = []) ∧
    (extract_all_tags p text).1.length = (extract_keywords_tfidf p text none).length ∧
    (extract_all_tags p text).2.length = (extract_entities p text).length := by
  refine ⟨?_, ?_, ?_, ?_, ?_, ?_⟩
  · intro h
    simp only [extract_entities, h]
  · intro h
    simp only [extract_keywords_tfidf]
    rw [if_pos h]
  · intro h
    simp only [calculate_document_similarity]
    rw [if_pos h]
  · intro h
    rw [find_similar_documents]
    by_cases hd : dcs = []
    · rw [if_pos hd]
    · rw [if_neg hd, if_pos h]
  · simp only [extract_all_tags]
    exact List.length_map _ _
  · simp only [extract_all_tags]
    exact List.length_map _ _

/-- Witness for C9 at concrete degraded inputs: the processor whose entity
model failed to load and the text `"x"`, which produces an empty vectorizer
vocabulary. -/
theorem pipeline_error_policy_witness :
    extract_entities defaultProcessor "x" = [] ∧
    extract_keywords_tfidf defaultProcessor "x" none = [] ∧
    calculate_document_similarity "x" "x" = 0 ∧
    find_similar_documents "x" [((1 : Int), "x")] (0 : ℝ) = [] := by
  obtain ⟨h1, h2, h3, h4, _, _⟩ :=
    pipeline_error_policy defaultProcessor "x" "x" "x" "x" [((1 : Int), "x")] 0 none
  exact ⟨h1 rfl, h2 (by decide), h3 (by decide), h4 (by decide)⟩

/-- C7 (amended): `calculate_document_similarity t t = 1` for every text `t`
whose processed form yields a NON-EMPTY fitted vocabulary (at least one
token of two or more word characters outside the vectorizer's stop list);
a non-empty normalized form alone is not sufficient. -/
theorem calculate_document_similarity_self (t : String)
    (h : fitVocabulary [preprocess_text t, preprocess_text t] ≠ []) :
    calculate_document_similarity t t = 1 := by
  simp only [calculate_document_similarity]
  rw [if_neg h]
  exact cosSim_self (tfidfVec_pair_self_dot_pos (preprocess_text t) h)

/-- Witness for C7's amended theorem at the concrete text `"ab"`. -/
theorem calculate_document_similarity_self_witness :
    calculate_document_similarity "ab" "ab" = 1 :=
  calculate_document_similarity_self "ab" (by decide)

/-- C7 counterexample: `"x"` has a non-empty normalized form, yet its
similarity to itself is `0`, not `1`: the vectorizer's token pattern needs
two word characters, the vocabulary comes out empty, `fit_transform` raises
and the `except` branch returns `0.0`. -/
theorem calculate_document_similarity_self_not_one :
    preprocess_text "x" ≠ "" ∧ calculate_document_similarity "x" "x" ≠ 1 := by
  constructor
  · decide
  · have h : fitVocabulary [preprocess_text "x", preprocess_text "x"] = [] := by decide
    simp only [calculate_document_similarity]
    rw [if_pos h]
    norm_num

/-- C2: `find_similar_documents` returns an empty sequence on an empty
candidate list for any target and threshold; its output is sorted by
non-increasing score, every retained entry scores at least the threshold,
and entries with equal scores keep the candidate order (stable sort). -/
theorem find_similar_contract (target : String) (dcs : List (Int × String)) (thr s : ℝ) :
    find_similar_documents target [] thr = [] ∧
    (find_similar_documents target dcs thr).Pairwise (fun a b => b.2 ≤ a.2) ∧
    filterScoreGe thr (find_similar_documents target dcs thr) =
      find_similar_documents target dcs thr ∧
    (dcs ≠ [] → fitVocabulary (simCorpus target dcs) ≠ [] →
      filterScoreEq s (find_similar_documents target dcs thr) =
        filterScoreEq s (filterScoreGe thr (similarityPairs target dcs))) := by
  refine ⟨?_, ?_, ?_, ?_⟩
  · rw [find_similar_documents, if_pos rfl]
  · rw [find_similar_documents]
    by_cases hd : dcs = []
    · rw [if_pos hd]
      exact List.Pairwise.nil
    · rw [if_neg hd]
      by_cases hv : fitVocabulary (simCorpus target dcs) = []
      · rw [if_pos hv]
        exact List.Pairwise.nil
      · rw [if_neg hv]
        exact sortKeyDesc_sorted Prod.snd _
  · rw [find_similar_documents]
    by_cases hd : dcs = []
    · rw [if_pos hd]
      rfl
    · rw [if_neg hd]
      by_cases hv : fitVocabulary (simCorpus target dcs) = []
      · rw [if_pos hv]
        rfl
      · rw [if_neg hv, filterScoreGe]
        apply List.filter_eq_self.mpr
        intro a ha
        have hmem : a ∈ filterScoreGe thr (similarityPairs target dcs) :=
          (sortKeyDesc_perm Prod.snd _).mem_iff.mp ha
        rw [filterScoreGe] at hmem
        exact (List.mem_filter.mp hmem).2
  · intro hd hv
    rw [find_similar_documents, if_neg hd, if_neg hv, filterScoreEq, filterScoreEq]
    refine sortKeyDesc_filter_keyClass _ ?_ _
    intro a b ha hb
    have h1 : a.2 = s := of_decide_eq_true ha
    have h2 : b.2 = s := of_decide_eq_true hb
    show a.2 = b.2
    rw [h1, h2]

/-- Witness for C2's guarded tie-stability conjunct at a concrete non-empty
candidate list with a non-empty fitted vocabulary. -/
theorem find_similar_contract_witness :
    filterScoreEq 0 (find_similar_documents "ab" [((1 : Int), "ab")] 0) =
      filterScoreEq 0 (filterScoreGe 0 (similarityPairs "ab" [((1 : Int), "ab")])) :=
  (find_similar_contract "ab" [((1 : Int), "ab")] 0 0).2.2.2 (by decide) (by decide)

theorem zip_map_proj {α β γ : Type} (l : List (α × β)) (g : α × β → γ) :
    ((l.zip (l.map g)).map (fun z => (z.1.1, z.2))).map Prod.fst = l.map Prod.fst := by
  induction l with
  | nil => rfl
  | cons d ds ih => simpa using ih

theorem similarityPairs_map_fst (target : String) (dcs : List (Int × String)) :
    (similarityPairs target dcs).map Prod.fst = dcs.map Prod.fst := by
  simp only [similarityPairs]
  exact zip_map_proj dcs _

theorem similarityPairs_length (target : String) (dcs : List (Int × String)) :
    (similarityPairs target dcs).length = dcs.length := by
  have h := congrArg List.length (similarityPairs_map_fst target dcs)
  simpa using h

/-- C10: every document id in the output of `find_similar_documents` is the
id of some input candidate, each candidate position contributes at most one
output entry (the multiplicity of every id in the output is bounded by its
multiplicity among the candidates), and the output length never exceeds the
number of candidates. -/
theorem find_similar_ids (target : String) (dcs : List (Int × String)) (thr : ℝ) (i : Int) :
    (find_similar_documents target dcs thr).length ≤ dcs.length ∧
    ((find_similar_documents target dcs thr).map Prod.fst).count i ≤
      (dcs.map Prod.fst).count i ∧
    (find_similar_documents target dcs thr).map Prod.fst ⊆ dcs.map Prod.fst := by
  rw [find_similar_documents]
  by_cases hd : dcs = []
  · rw [if_pos hd]
    exact ⟨Nat.zero_le _, Nat.zero_le _, by simp⟩
  · rw [if_neg hd]
    by_cases hv : fitVocabulary (simCorpus target dcs) = []
    · rw [if_pos hv]
      exact ⟨Nat.zero_le _, Nat.zero_le _, by simp⟩
    · rw [if_neg hv]
      have hperm := sortKeyDesc_perm Prod.snd (filterScoreGe thr (similarityPairs target dcs))
      have hsub : (filterScoreGe thr (similarityPairs target dcs)).Sublist
          (similarityPairs target dcs) := by
        rw [filterScoreGe]
        exact List.filter_sublist _
      have hmapsub : ((filterScoreGe thr (similarityPairs target dcs)).map Prod.fst).Sublist
          ((similarityPairs target dcs).map Prod.fst) := hsub.map Prod.fst
      refine ⟨?_, ?_, ?_⟩
      · rw [hperm.length_eq]
        exact le_trans hsub.length_le (le_of_eq (similarityPairs_length target dcs))
      · rw [(hperm.map Prod.fst).count_eq i, ← similarityPairs_map_fst target dcs]
        exact hmapsub.count_le i
      · intro a ha
        rcases List.mem_map.mp ha with ⟨x, hx, rfl⟩
        have hx2 : x ∈ similarityPairs target dcs := hsub.subset (hperm.mem_iff.mp hx)
        rw [← similarityPairs_map_fst target dcs]
        exact List.mem_map_of_mem Prod.fst hx2
